import Mathlib

/-!
Verification development for the 3A2BOT CI reconciliation bot.

This file gives a shallow embedding, in Lean, of the bot's CI log analysis
and status-reconciliation logic (`ci_checker.py`, `github_ops.py`, with the
historical variant in `main.py`), and proves or refutes the specification
claims about it.

Python strings are modelled as Lean `String` / `List Char`; raw log bytes as
`List Nat`; the GitHub-side mutable state of a pull request (its comments and
labels) as an explicit `PRState` record threaded through the operations, with
an action trace recording the externally visible writes.
-/

namespace Bot

/-! ### Basic string helpers (Python semantics) -/

/-- ASCII whitespace, as stripped by Python `str.strip()` on ASCII text. -/
def isPySpace (c : Char) : Bool :=
  c == ' ' || c == '\t' || c == '\n' || c == '\r' || c == '\x0b' || c == '\x0c'

/-- Strip leading and trailing whitespace from a character list. -/
def pstripL (l : List Char) : List Char :=
  ((l.dropWhile isPySpace).reverse.dropWhile isPySpace).reverse

/-- Python `s.strip()`. -/
def pstrip (s : String) : String :=
  (pstripL s.data).asString

/-- Substring test on character lists: does `needle` occur contiguously in `hay`? -/
def listContains (needle : List Char) : List Char → Bool
  | [] => needle.isEmpty
  | c :: t => needle.isPrefixOf (c :: t) || listContains needle t

/-- Python `sub in s` (substring containment). -/
def strIn (sub s : String) : Bool :=
  listContains sub.data s.data

/-- Python `s.startswith(p)` / an anchored regex literal match. -/
def strStartsWith (s p : String) : Bool :=
  p.data.isPrefixOf s.data

/-- Python `s[:n]` (slice of the first `n` characters). -/
def strTake (s : String) (n : Nat) : String :=
  (s.data.take n).asString

/-! ### `clean_line` (ci_checker.py lines 12-19, identical in main.py)

`re.sub(r"^\s*\d{4}-\d{2}-\d{2}T\d{2}:\d{2}:\d{2}\.\d+Z\s*", "", line)`
removes a leading ISO timestamp;
`re.sub(r"(?:\x1b|�)\[[0-9;]*[mK]", "", cleaned)` removes ANSI escapes;
then `.strip()`. -/

/-- Consume exactly `n` ASCII digits. -/
def pExactDigits : Nat → List Char → Option (List Char)
  | 0, l => some l
  | _ + 1, [] => none
  | n + 1, c :: l => if c.isDigit then pExactDigits n l else none

/-- Consume one expected literal character. -/
def pLit (c : Char) : List Char → Option (List Char)
  | [] => none
  | x :: l => if x == c then some l else none

/-- Consume one or more ASCII digits (regex `\d+`). -/
def pDigits1 (l : List Char) : Option (List Char) :=
  if (l.takeWhile Char.isDigit).isEmpty then none else some (l.dropWhile Char.isDigit)

/-- Match the leading-timestamp regex
`^\s*\d{4}-\d{2}-\d{2}T\d{2}:\d{2}:\d{2}\.\d+Z\s*` against the start of the
line, returning the remainder on success. -/
def parseTimestamp (l : List Char) : Option (List Char) :=
  (pExactDigits 4 (l.dropWhile isPySpace)).bind fun l =>
  (pLit '-' l).bind fun l =>
  (pExactDigits 2 l).bind fun l =>
  (pLit '-' l).bind fun l =>
  (pExactDigits 2 l).bind fun l =>
  (pLit 'T' l).bind fun l =>
  (pExactDigits 2 l).bind fun l =>
  (pLit ':' l).bind fun l =>
  (pExactDigits 2 l).bind fun l =>
  (pLit ':' l).bind fun l =>
  (pExactDigits 2 l).bind fun l =>
  (pLit '.' l).bind fun l =>
  (pDigits1 l).bind fun l =>
  (pLit 'Z' l).map fun l =>
  l.dropWhile isPySpace

/-- First substitution of `clean_line`: drop a leading ISO timestamp if present. -/
def stripTimestampL (l : List Char) : List Char :=
  match parseTimestamp l with
  | some rest => rest
  | none => l

/-- Try to match the tail of the ANSI-escape regex `\[[0-9;]*[mK]` after the
introducing `\x1b` or `�` character; return the remainder on a full match. -/
def tryAnsi (cs : List Char) : Option (List Char) :=
  match cs with
  | c :: rest =>
    if c == '[' then
      match rest.dropWhile (fun c => c.isDigit || c == ';') with
      | m :: r => if m == 'm' || m == 'K' then some r else none
      | [] => none
    else none
  | [] => none

/-- Second substitution of `clean_line`, fuel-driven so it reduces in the
kernel: remove every occurrence of `(?:\x1b|�)\[[0-9;]*[mK]`.  The fuel is
initialised to the line length, which bounds the number of loop steps. -/
def removeAnsiGo : Nat → List Char → List Char
  | 0, l => l
  | _ + 1, [] => []
  | fuel + 1, c :: cs =>
    if c == '\x1b' || c == '�' then
      match tryAnsi cs with
      | some r => removeAnsiGo fuel r
      | none => c :: removeAnsiGo fuel cs
    else c :: removeAnsiGo fuel cs

/-- Remove every occurrence of the ANSI-escape pattern from a line. -/
def removeAnsi (l : List Char) : List Char :=
  removeAnsiGo l.length l

/-- `clean_line` from ci_checker.py (and main.py): strip a leading ISO
timestamp, remove ANSI escape sequences, then trim surrounding whitespace. -/
def clean_line (line : String) : String :=
  (pstripL (removeAnsi (stripTimestampL line.data))).asString

/-! ### `extract_error_snippets` (ci_checker.py lines 21-30)

```python
for line in lines:
    cleaned = clean_line(line)
    if re.match(r'^(FAILED|FATAL|fatal|ERROR|error|WARNING|warning)', cleaned):
        candidates.append(cleaned)
```
-/

/-- The alternatives of the marker regex in ci_checker.py. -/
def errorMarkers : List String :=
  ["FAILED", "FATAL", "fatal", "ERROR", "error", "WARNING", "warning"]

/-- `re.match(r'^(FAILED|FATAL|fatal|ERROR|error|WARNING|warning)', cleaned)`
as a Boolean: the cleaned line starts with one of the alternatives. -/
def matchesErrorStart (cleaned : String) : Bool :=
  errorMarkers.any (fun m => strStartsWith cleaned m)

/-- `extract_error_snippets` from ci_checker.py: collect the cleaned form of
every line whose cleaned form starts with a marker. -/
def extract_error_snippets (lines : List String) : List String :=
  lines.foldl
    (fun candidates line =>
      let cleaned := clean_line line
      if matchesErrorStart cleaned then candidates ++ [cleaned] else candidates)
    []

/-- The alternatives of the marker regex in the main.py variant
(`^(FAILED|FATAL|fatal|"msg":|ERROR)`). -/
def errorMarkersMain : List String :=
  ["FAILED", "FATAL", "fatal", "\"msg\":", "ERROR"]

/-- The marker test of the main.py variant. -/
def matchesErrorStartMain (cleaned : String) : Bool :=
  errorMarkersMain.any (fun m => strStartsWith cleaned m)

/-- `extract_error_snippets` from main.py (historical variant of the same
function, differing only in the marker regex). -/
def extract_error_snippets_main (lines : List String) : List String :=
  lines.foldl
    (fun candidates line =>
      let cleaned := clean_line line
      if matchesErrorStartMain cleaned then candidates ++ [cleaned] else candidates)
    []

/-! ### Name normalization and job matching (ci_checker.py lines 32-39, 64-77, 92-95)

Job key: `re.sub(r"[^a-z0-9]", "_", name.lower())`.
Folder: `re.sub(r"^\d+_", "", folder).replace(".txt", "").strip().lower()`
then `re.sub(r"[^a-z0-9]", "_", normalized_folder)`. -/

/-- ASCII lowering, modelling Python `str.lower()` on the ASCII names involved. -/
def toLowerL (l : List Char) : List Char :=
  l.map Char.toLower

/-- `re.sub(r"[^a-z0-9]", "_", s)`: each character outside `[a-z0-9]` becomes
one underscore. -/
def subNonAlnumL (l : List Char) : List Char :=
  l.map (fun c => if ('a' ≤ c ∧ c ≤ 'z') ∨ ('0' ≤ c ∧ c ≤ '9') then c else '_')

/-- The normalized lookup key built from a failed job's display name. -/
def normKey (name : String) : String :=
  (subNonAlnumL (toLowerL name.data)).asString

/-- `re.sub(r"^\d+_", "", folder)`: strip one leading run of digits followed by
an underscore, if present. -/
def stripNumPrefixL (l : List Char) : List Char :=
  if (l.takeWhile Char.isDigit).isEmpty then l
  else
    match l.dropWhile Char.isDigit with
    | c :: r => if c == '_' then r else l
    | [] => l

/-- `s.replace(".txt", "")`: remove every occurrence of `.txt`, scanning left
to right (fuel-driven so it reduces in the kernel). -/
def removeTxtGo : Nat → List Char → List Char
  | 0, l => l
  | _ + 1, [] => []
  | fuel + 1, c :: cs =>
    if ['.', 't', 'x', 't'].isPrefixOf (c :: cs) then removeTxtGo fuel (cs.drop 3)
    else c :: removeTxtGo fuel cs

/-- Remove every occurrence of `.txt`. -/
def removeTxtL (l : List Char) : List Char :=
  removeTxtGo l.length l

/-- The folder-name normalization of ci_checker.py lines 93-94. -/
def normalizeFolder (folder : String) : String :=
  (subNonAlnumL (toLowerL (pstripL (removeTxtL (stripNumPrefixL folder.data))))).asString

/-- `match_job_for_log` from ci_checker.py: first table entry such that one of
the normalized folder and the key contains the other, in table order. -/
def match_job_for_log (normalized_folder : String) : List (String × String) → Option String
  | [] => none
  | (key, job) :: rest =>
    if strIn normalized_folder key || strIn key normalized_folder then some job
    else match_job_for_log normalized_folder rest

/-- One job from the run's job list, as returned by the jobs API. -/
structure Job where
  name : String
  conclusion : String
deriving DecidableEq

/-- The `job_lookup` dict built in ci_checker.py lines 69-74: insertion-ordered
mapping from normalized key to display name, for failed jobs only.  Assigning
an existing key overwrites its value in place, as for a Python dict. -/
def dictInsert (l : List (String × String)) (k v : String) : List (String × String) :=
  if l.any (fun p => p.1 == k) then l.map (fun p => if p.1 == k then (k, v) else p)
  else l ++ [(k, v)]

/-- Build `job_lookup` from the job list. -/
def buildJobLookup (jobs : List Job) : List (String × String) :=
  jobs.foldl
    (fun acc j =>
      if j.conclusion == "failure" then dictInsert acc (normKey j.name) j.name else acc)
    []

/-- The `failed_jobs` set: names of jobs whose conclusion is `failure`
(insertion order, first occurrence kept; only emptiness is ever consumed). -/
def failedJobs (jobs : List Job) : List String :=
  jobs.foldl
    (fun acc j =>
      if j.conclusion == "failure" then
        (if acc.contains j.name then acc else acc ++ [j.name])
      else acc)
    []

/-! ### Log decoding and line splitting -/

/-- Python `str.splitlines` line-break characters (the ones with code points
below the surrogate range, plus U+2028/U+2029). -/
def isLineBreak (c : Char) : Bool :=
  c == '\n' || c == '\r' || c == '\x0b' || c == '\x0c' || c == '\x1c' ||
  c == '\x1d' || c == '\x1e' || c == '\x85' || c.toNat == 0x2028 || c.toNat == 0x2029

/-- Worker for `splitlines`: accumulate the current line (reversed) and split
at line breaks, treating `\r\n` as a single break; a trailing break does not
produce an empty final line.  Fuel-driven (the fuel is initialised to the text
length, which bounds the number of steps) so it reduces in the kernel. -/
def splitlinesGo : Nat → List Char → List Char → List (List Char)
  | 0, acc, _ => [acc.reverse]
  | _ + 1, acc, [] => [acc.reverse]
  | fuel + 1, acc, c :: r =>
    if c == '\r' then
      match r with
      | '\n' :: r2 => acc.reverse :: (if r2.isEmpty then [] else splitlinesGo fuel [] r2)
      | _ => acc.reverse :: (if r.isEmpty then [] else splitlinesGo fuel [] r)
    else if isLineBreak c then acc.reverse :: (if r.isEmpty then [] else splitlinesGo fuel [] r)
    else splitlinesGo fuel (c :: acc) r

/-- Python `content.splitlines()`. -/
def splitlinesL (l : List Char) : List (List Char) :=
  if l.isEmpty then [] else splitlinesGo l.length [] l

/-- UTF-8 continuation byte. -/
def isContByte (b : Nat) : Bool :=
  0x80 ≤ b && b ≤ 0xBF

/-- Valid second byte of a three-byte sequence (excludes overlong forms and
surrogates). -/
def validCont2 (b b2 : Nat) : Bool :=
  if b == 0xE0 then 0xA0 ≤ b2 && b2 ≤ 0xBF
  else if b == 0xED then 0x80 ≤ b2 && b2 ≤ 0x9F
  else isContByte b2

/-- Valid second byte of a four-byte sequence (excludes overlong forms and
code points above U+10FFFF). -/
def validCont3 (b b2 : Nat) : Bool :=
  if b == 0xF0 then 0x90 ≤ b2 && b2 ≤ 0xBF
  else if b == 0xF4 then 0x80 ≤ b2 && b2 ≤ 0x8F
  else isContByte b2

/-- Worker for `bytes.decode("utf-8", errors="ignore")`: decode valid UTF-8
sequences; bytes that are not part of any valid sequence are dropped, never
fatal.  Fuel-driven (one unit per leading byte) so it reduces in the kernel. -/
def utf8DecodeIgnoreGo : Nat → List Nat → List Char
  | 0, _ => []
  | _ + 1, [] => []
  | fuel + 1, b :: bs =>
    if b < 0x80 then Char.ofNat b :: utf8DecodeIgnoreGo fuel bs
    else if 0xC2 ≤ b ∧ b ≤ 0xDF then
      match bs with
      | b2 :: bs2 =>
        if isContByte b2 then
          Char.ofNat ((b - 0xC0) * 64 + (b2 - 0x80)) :: utf8DecodeIgnoreGo fuel bs2
        else utf8DecodeIgnoreGo fuel bs
      | [] => []
    else if 0xE0 ≤ b ∧ b ≤ 0xEF then
      match bs with
      | b2 :: b3 :: bs3 =>
        if validCont2 b b2 && isContByte b3 then
          Char.ofNat ((b - 0xE0) * 4096 + (b2 - 0x80) * 64 + (b3 - 0x80)) ::
            utf8DecodeIgnoreGo fuel bs3
        else utf8DecodeIgnoreGo fuel bs
      | _ => utf8DecodeIgnoreGo fuel bs
    else if 0xF0 ≤ b ∧ b ≤ 0xF4 then
      match bs with
      | b2 :: b3 :: b4 :: bs4 =>
        if validCont3 b b2 && isContByte b3 && isContByte b4 then
          Char.ofNat ((b - 0xF0) * 262144 + (b2 - 0x80) * 4096 + (b3 - 0x80) * 64 + (b4 - 0x80)) ::
            utf8DecodeIgnoreGo fuel bs4
        else utf8DecodeIgnoreGo fuel bs
      | _ => utf8DecodeIgnoreGo fuel bs
    else utf8DecodeIgnoreGo fuel bs

/-- `content.decode("utf-8", errors="ignore")`: total, never raises. -/
def utf8DecodeIgnore (bytes : List Nat) : List Char :=
  utf8DecodeIgnoreGo bytes.length bytes

/-! ### Zip-archive processing (ci_checker.py lines 87-108) -/

/-- One named blob of the downloaded log archive.  `readable` models whether
`f.read()` succeeds (the `try`/`except` at lines 99-103 skips the file on an
exception); `bytes` are the raw bytes handed to `.decode`. -/
structure ZipEntry where
  path : String
  readable : Bool
  bytes : List Nat
deriving DecidableEq

/-- Python `s.endswith(suffix)`. -/
def strEndsWith (s suffix : String) : Bool :=
  suffix.data.isSuffixOf s.data

/-- Python `file_name.split("/")[0]`. -/
def headSplitSlash (s : String) : String :=
  (s.data.takeWhile (fun c => !(c == '/'))).asString

/-- The loop body of ci_checker.py lines 89-108, acting on the `job_logs`
accumulator for one archive entry. -/
def processZipStep (job_lookup : List (String × String))
    (jobLogs : List (String × String)) (e : ZipEntry) : List (String × String) :=
  if !(strEndsWith e.path ".txt") then jobLogs
  else
    let folder := headSplitSlash e.path
    let normalized_folder := normalizeFolder folder
    match match_job_for_log normalized_folder job_lookup with
    | none => jobLogs
    | some matched_job =>
      if jobLogs.any (fun p => p.1 == matched_job) then jobLogs
      else if !e.readable then jobLogs
      else
        let content := utf8DecodeIgnore e.bytes
        let lines := (splitlinesL content).map List.asString
        let snippets := extract_error_snippets lines
        if snippets.isEmpty then jobLogs
        else jobLogs ++ [(matched_job, String.intercalate "\n\n---\n\n" snippets)]

/-- The whole zip loop: build the `job_logs` insertion-ordered map. -/
def processZip (job_lookup : List (String × String)) (entries : List ZipEntry) :
    List (String × String) :=
  entries.foldl (processZipStep job_lookup) []

/-! ### Pull-request state and GitHub write operations (github_ops.py)

A pull request's mutable GitHub-side state is its ordered comment list (each
comment identified by its body) and its label list.  Every operation returns
the new state together with the trace of external writes it performed. -/

/-- One externally visible GitHub write. -/
inductive Act where
  | postComment (body : String)
  | editComment (newBody : String)
  | addLabel (name : String)
  | removeLabel (name : String)
deriving DecidableEq

/-- The mutable state of one pull request. -/
@[ext]
structure PRState where
  comments : List String
  labels : List String
deriving DecidableEq

/-- The marker substring identifying bot comments. -/
def botMarker : String := "CI Test Failures Detected"

/-- `"CI Test Failures Detected" in c.body`. -/
def isBotComment (body : String) : Bool :=
  strIn botMarker body

/-- The archival-container marker `"<details>"`. -/
def detailsTag : String := "<details>"

/-- `"<details>" in latest.body`. -/
def isArchivedComment (body : String) : Bool :=
  strIn detailsTag body

/-- The collapsible wrapper built by `archive_old_comment`. -/
def archiveWrap (body : String) : String :=
  "<details>\n<summary>🕙 Outdated CI result (auto-archived by bot)</summary>\n\n" ++
    body ++ "\n</details>"

/-- Replace the last element satisfying `p` (if any) by its image under `f`,
modelling an in-place `edit` of the last matching comment. -/
def replaceLastSat (p : String → Bool) (f : String → String) : List String → List String
  | [] => []
  | x :: xs =>
    if xs.any p then x :: replaceLastSat p f xs
    else if p x then f x :: xs
    else x :: xs

/-- `archive_old_comment` from github_ops.py: wrap the most recent comment
containing the marker in the collapsible container, unless it already
contains `"<details>"`. -/
def archive_old_comment (s : PRState) : PRState × List Act :=
  match (s.comments.filter isBotComment).getLast? with
  | none => (s, [])
  | some latest =>
    if isArchivedComment latest then (s, [])
    else
      ({ s with comments := replaceLastSat isBotComment (fun _ => archiveWrap latest) s.comments },
       [Act.editComment (archiveWrap latest)])

/-- `post_or_update_comment` from github_ops.py: skip when the new body equals
(after `.strip()`) the most recent marker comment's body; otherwise archive the
old comment and post the new one. -/
def post_or_update_comment (s : PRState) (new_body : String) : PRState × List Act :=
  match (s.comments.filter isBotComment).getLast? with
  | some last =>
    if pstrip new_body ≠ pstrip last then
      let s1 := (archive_old_comment s).1
      ({ s1 with comments := s1.comments ++ [new_body] },
       (archive_old_comment s).2 ++ [Act.postComment new_body])
    else (s, [])
  | none =>
    ({ s with comments := s.comments ++ [new_body] }, [Act.postComment new_body])

/-- `add_label` from github_ops.py: append the label unless already present. -/
def add_label (s : PRState) (label : String) : PRState × List Act :=
  if s.labels.contains label then (s, [])
  else ({ s with labels := s.labels ++ [label] }, [Act.addLabel label])

/-- `remove_label` from github_ops.py: remove the label if present. -/
def remove_label (s : PRState) (label : String) : PRState × List Act :=
  if s.labels.contains label then
    ({ s with labels := s.labels.filter (fun x => !(x == label)) }, [Act.removeLabel label])
  else (s, [])

/-! ### The reconciliation pass (ci_checker.py `check_ci_errors_and_comment`)

The network-provided inputs of one pass — the workflow-run query, the log
download, and the jobs fetch — are modelled as an explicit input record. -/

/-- The external inputs consumed by one reconciliation pass. -/
structure CIInput where
  /-- `runs.totalCount` for the PR's head SHA. -/
  runsCount : Nat
  /-- `latest_run.status`. -/
  runStatus : String
  /-- HTTP status of the log-archive download. -/
  logsStatus : Nat
  /-- HTTP status of the jobs-list fetch. -/
  jobsStatus : Nat
  /-- The run's job list (name, conclusion). -/
  jobs : List Job
  /-- The entries of the downloaded log archive. -/
  zipEntries : List ZipEntry
deriving DecidableEq

/-- The branch taken by one reconciliation pass, mirroring the early returns
and the three-way outcome split of `check_ci_errors_and_comment`. -/
inductive Outcome where
  | noRuns
  | stillRunning
  | logsDownloadFailed
  | jobsFetchFailed
  | allPassed
  | failedNoEvidence
  | failedWithEvidence
deriving DecidableEq

/-- Which branch of `check_ci_errors_and_comment` an input drives the pass
into (the branch conditions, in source order). -/
def classifyRun (input : CIInput) : Outcome :=
  if input.runsCount == 0 then Outcome.noRuns
  else if input.runStatus ≠ "completed" then Outcome.stillRunning
  else if input.logsStatus ≠ 200 then Outcome.logsDownloadFailed
  else if input.jobsStatus ≠ 200 then Outcome.jobsFetchFailed
  else if (failedJobs input.jobs).isEmpty then Outcome.allPassed
  else if (processZip (buildJobLookup input.jobs) input.zipEntries).isEmpty then
    Outcome.failedNoEvidence
  else Outcome.failedWithEvidence

/-- The comment-body header of ci_checker.py line 114. -/
def commentHeader : String := "🚨 **CI Test Failures Detected**\n\n"

/-- The full comment body of ci_checker.py lines 114-117: header, then per job
a heading and a fenced block with the snippet truncated to 1000 characters. -/
def commentBody (jobLogs : List (String × String)) : String :=
  jobLogs.foldl
    (fun acc p => acc ++ ("### ⚙️ " ++ p.1 ++ "\n" ++ "```bash\n" ++ strTake p.2 1000 ++ "\n```\n\n"))
    commentHeader

/-- `check_ci_errors_and_comment` from ci_checker.py, with the github_ops
callbacks wired in exactly as bot.py does. -/
def check_ci_errors_and_comment (input : CIInput) (pr : PRState) : PRState × List Act :=
  if input.runsCount == 0 then (pr, [])
  else if input.runStatus ≠ "completed" then (pr, [])
  else if input.logsStatus ≠ 200 then (pr, [])
  else if input.jobsStatus ≠ 200 then (pr, [])
  else if (failedJobs input.jobs).isEmpty then
    let r1 := archive_old_comment pr
    let r2 := remove_label r1.1 "stale_ci"
    let r3 := remove_label r2.1 "needs_revision"
    let r4 := add_label r3.1 "success"
    (r4.1, r1.2 ++ r2.2 ++ r3.2 ++ r4.2)
  else
    let job_logs := processZip (buildJobLookup input.jobs) input.zipEntries
    if job_logs.isEmpty then (pr, [])
    else
      let body := commentBody job_logs
      let r1 := post_or_update_comment pr body
      let r2 := remove_label r1.1 "success"
      let r3 := remove_label r2.1 "stale_ci"
      let r4 := remove_label r3.1 "needs_revision"
      let r5 := add_label r4.1 "stale_ci"
      let r6 := add_label r5.1 "needs_revision"
      (r6.1, r1.2 ++ r2.2 ++ r3.2 ++ r4.2 ++ r5.2 ++ r6.2)

/-! ### Concrete sample data for witnesses -/

/-- A sample run: one failed job whose log archive yields one snippet. -/
def sampleFweInput : CIInput :=
  { runsCount := 1, runStatus := "completed", logsStatus := 200, jobsStatus := 200,
    jobs := [{ name := "Units (devel)", conclusion := "failure" }],
    zipEntries := [{ path := "0_units__devel_/1_test.txt", readable := true,
                     bytes := "FAILED: x".data.map Char.toNat }] }

/-- A sample pull-request state with no comments and no labels. -/
def emptyPR : PRState := { comments := [], labels := [] }

/-- A sample run with one failed job and an archive yielding no evidence. -/
def sampleFneInput : CIInput :=
  { runsCount := 1, runStatus := "completed", logsStatus := 200, jobsStatus := 200,
    jobs := [{ name := "J", conclusion := "failure" }], zipEntries := [] }

/-- A pull-request state carrying both `success` and `stale_ci` (as might be
set externally). -/
def conflictedPR : PRState := { comments := [], labels := ["success", "stale_ci"] }

/-! ### Spec-side definitions used for refinement comparison -/

/-- Stated from the spec's words (§4.4, glossary): the *active* bot comment is
the most recent comment containing the marker substring that is not already
wrapped in the archival container.  Used to compare the code's selection
against the spec's. -/
def specActiveComment (comments : List String) : Option String :=
  (comments.filter (fun c => isBotComment c && !(isArchivedComment c))).getLast?

/-- The archival invariant of a comment history: every marker comment except
possibly the most recent one is already wrapped in the archival container.
This holds for every comment history the bot itself produces. -/
def BotCommentsArchivedInv (comments : List String) : Prop :=
  ∀ c ∈ (comments.filter isBotComment).dropLast, isArchivedComment c = true

/-! ## General lemmas about the embedded operations -/

theorem listContains_of_isPrefixOf {n h : List Char} (hp : n.isPrefixOf h = true) :
    listContains n h = true := by
  cases h with
  | nil =>
    have : n = [] := List.prefix_nil.mp (List.isPrefixOf_iff_prefix.mp hp)
    simp [listContains, this]
  | cons c t => simp [listContains, hp]

theorem listContains_append_right {n b : List Char} (a : List Char)
    (hc : listContains n b = true) : listContains n (a ++ b) = true := by
  induction a with
  | nil => simpa using hc
  | cons x xs ih =>
    simp only [List.cons_append, listContains, Bool.or_eq_true]
    exact Or.inr ih

theorem listContains_append_left {n a : List Char} (b : List Char)
    (hc : listContains n a = true) : listContains n (a ++ b) = true := by
  induction a with
  | nil =>
    simp only [listContains] at hc
    have : n = [] := by simpa using hc
    subst this
    cases b with
    | nil => simp [listContains]
    | cons c t => simp [listContains, List.isPrefixOf]
  | cons x xs ih =>
    simp only [listContains, Bool.or_eq_true] at hc
    rcases hc with hp | ht
    · have : n <+: (x :: xs) := List.isPrefixOf_iff_prefix.mp hp
      have : n <+: (x :: xs) ++ b := this.trans (List.prefix_append _ _)
      simp only [List.cons_append, listContains, Bool.or_eq_true]
      exact Or.inl (List.isPrefixOf_iff_prefix.mpr (by simpa using this))
    · simp only [List.cons_append, listContains, Bool.or_eq_true]
      exact Or.inr (ih ht)

theorem strIn_append_left {sub a : String} (b : String) (h : strIn sub a = true) :
    strIn sub (a ++ b) = true := by
  simp only [strIn, String.data_append]
  exact listContains_append_left _ h

theorem strIn_append_right {sub b : String} (a : String) (h : strIn sub b = true) :
    strIn sub (a ++ b) = true := by
  simp only [strIn, String.data_append]
  exact listContains_append_right _ h

/-- The archival wrapper always contains the `"<details>"` tag. -/
theorem isArchivedComment_archiveWrap (body : String) :
    isArchivedComment (archiveWrap body) = true := by
  unfold archiveWrap
  apply strIn_append_left
  apply strIn_append_left
  decide

/-- The archival wrapper of a marker comment still contains the marker. -/
theorem isBotComment_archiveWrap {body : String} (h : isBotComment body = true) :
    isBotComment (archiveWrap body) = true := by
  unfold archiveWrap
  apply strIn_append_left
  exact strIn_append_right _ h

/-- The comment body built for a failure report extends the fixed header. -/
theorem commentBody_eq_header_append (jobLogs : List (String × String)) :
    ∃ rest : String, commentBody jobLogs = commentHeader ++ rest := by
  suffices h : ∀ (l : List (String × String)) (acc : String),
      ∃ rest : String,
        l.foldl (fun acc p =>
          acc ++ ("### ⚙️ " ++ p.1 ++ "\n" ++ "```bash\n" ++ strTake p.2 1000 ++ "\n```\n\n")) acc =
        acc ++ rest by
    exact h jobLogs commentHeader
  intro l
  induction l with
  | nil => exact fun acc => ⟨"", (String.append_empty acc).symm⟩
  | cons p t ih =>
    intro acc
    obtain ⟨r, hr⟩ := ih (acc ++ ("### ⚙️ " ++ p.1 ++ "\n" ++ "```bash\n" ++ strTake p.2 1000 ++ "\n```\n\n"))
    exact ⟨_, by rw [List.foldl_cons, hr, String.append_assoc]⟩

/-- The generated comment body is itself a marker comment. -/
theorem isBotComment_commentBody (jobLogs : List (String × String)) :
    isBotComment (commentBody jobLogs) = true := by
  obtain ⟨rest, hr⟩ := commentBody_eq_header_append jobLogs
  rw [hr]
  apply strIn_append_left
  decide

/-! ### Label operations -/

theorem add_label_comments (s : PRState) (l : String) :
    (add_label s l).1.comments = s.comments := by
  unfold add_label; split <;> rfl

theorem remove_label_comments (s : PRState) (l : String) :
    (remove_label s l).1.comments = s.comments := by
  unfold remove_label; split <;> rfl

theorem archive_old_comment_labels (s : PRState) :
    (archive_old_comment s).1.labels = s.labels := by
  unfold archive_old_comment
  split
  · rfl
  · split <;> rfl

theorem post_or_update_comment_labels (s : PRState) (b : String) :
    (post_or_update_comment s b).1.labels = s.labels := by
  unfold post_or_update_comment
  split
  · split
    · simp only
      exact archive_old_comment_labels s
    · rfl
  · rfl

/-- `remove_label` always leaves exactly the labels different from the removed
one (removing an absent label is a no-op that equals the filter). -/
theorem remove_label_labels (s : PRState) (l : String) :
    (remove_label s l).1.labels = s.labels.filter (fun x => !(x == l)) := by
  unfold remove_label
  split
  · rfl
  · rename_i hc
    have hl : l ∉ s.labels := by
      intro hmem
      exact hc (by simpa using hmem)
    symm
    apply List.filter_eq_self.mpr
    intro x hx
    simp only [Bool.not_eq_true']
    exact beq_eq_false_iff_ne.mpr (fun e => hl (e ▸ hx))

theorem mem_add_label {x : String} (s : PRState) (l : String) :
    x ∈ (add_label s l).1.labels ↔ x ∈ s.labels ∨ x = l := by
  unfold add_label
  split
  · rename_i hc
    have hl : l ∈ s.labels := by simpa using hc
    constructor
    · exact fun h => Or.inl h
    · rintro (h | rfl)
      · exact h
      · exact hl
  · simp [List.mem_append]

theorem mem_remove_label {x : String} (s : PRState) (l : String) :
    x ∈ (remove_label s l).1.labels ↔ x ∈ s.labels ∧ x ≠ l := by
  rw [remove_label_labels]
  simp [List.mem_filter]

/-! ### The failed-jobs set -/

theorem failedJobs_foldl_ne_nil (t : List Job) :
    ∀ acc : List String, acc ≠ [] →
      t.foldl
        (fun acc j =>
          if j.conclusion == "failure" then
            (if acc.contains j.name then acc else acc ++ [j.name])
          else acc) acc ≠ [] := by
  induction t with
  | nil => exact fun acc h => h
  | cons j t ih =>
    intro acc h
    simp only [List.foldl_cons]
    apply ih
    split
    · split
      · exact h
      · simp
    · exact h

/-- The `failed_jobs` set is empty iff no job in the run concluded `failure`. -/
theorem failedJobs_eq_nil_iff (jobs : List Job) :
    failedJobs jobs = [] ↔ ∀ j ∈ jobs, j.conclusion ≠ "failure" := by
  unfold failedJobs
  induction jobs with
  | nil => simp
  | cons j t ih =>
    simp only [List.foldl_cons, List.mem_cons]
    by_cases hj : j.conclusion = "failure"
    · have hb : (j.conclusion == "failure") = true := by simpa using hj
      simp only [hb, if_true, List.contains_nil, List.nil_append]
      constructor
      · intro h
        exact absurd h (failedJobs_foldl_ne_nil t [j.name] (by simp))
      · intro h
        exact absurd hj (h j (Or.inl rfl))
    · have hb : (j.conclusion == "failure") = false := by simpa using hj
      simp only [hb, if_false] at *
      constructor
      · intro h x hx
        rcases hx with rfl | hx
        · exact hj
        · exact ih.mp h x hx
      · intro h
        exact ih.mpr (fun x hx => h x (Or.inr hx))

/-! ### Zip processing -/

/-- An unreadable file contributes nothing to the per-job log map. -/
theorem processZipStep_unreadable (job_lookup : List (String × String))
    (acc : List (String × String)) {e : ZipEntry} (h : e.readable = false) :
    processZipStep job_lookup acc e = acc := by
  unfold processZipStep
  split
  · rfl
  · simp only
    split
    · rfl
    · split
      · rfl
      · simp [h]

/-- The characterization shared by both extractor variants: the fold collects
exactly the cleaned lines passing the marker test, in order. -/
theorem extract_foldl_characterization (p : String → Bool) :
    ∀ (lines : List String) (acc : List String),
      lines.foldl
        (fun candidates line =>
          let cleaned := clean_line line
          if p cleaned then candidates ++ [cleaned] else candidates) acc =
      acc ++ (lines.map clean_line).filter p := by
  intro lines
  induction lines with
  | nil => simp
  | cons l t ih =>
    intro acc
    simp only [List.foldl_cons, List.map_cons, List.filter_cons]
    by_cases hp : p (clean_line l) = true
    · simp only [hp, if_true]
      rw [ih]
      simp
    · simp only [Bool.not_eq_true] at hp
      simp [hp, ih]

/-! ## The claims -/

/-- C3 (code_bug evidence): on a 12-line log whose only qualifying line
`"FAILED: assertion error"` sits at index 5, `extract_error_snippets` emits
only that cleaned line itself — not the documented context window
`[max(0,5-3), min(12,5+7)) = [2,12)` of 10 lines. -/
theorem snippet_has_no_context_window :
    extract_error_snippets
      ["l0", "l1", "l2", "l3", "l4", "FAILED: assertion error",
       "l6", "l7", "l8", "l9", "l10", "l11"] =
    ["FAILED: assertion error"] := by decide

/-- C4 (counterexample): a line matching the claimed vocabulary entry
`Traceback` is selected by neither extractor variant. -/
theorem traceback_line_not_selected :
    extract_error_snippets ["Traceback (most recent call last):"] = []
    ∧ extract_error_snippets_main ["Traceback (most recent call last):"] = [] := by decide

/-- C4 (amended): a cleaned log line is selected as a candidate error line iff
it starts with one of `FAILED`, `FATAL`, `fatal`, `ERROR`, `error`, `WARNING`,
`warning` (ci_checker.py), respectively one of `FAILED`, `FATAL`, `fatal`,
`"msg":`, `ERROR` (main.py variant); no other marker selects a line. -/
theorem candidate_line_selection_characterization (lines : List String) :
    extract_error_snippets lines = (lines.map clean_line).filter matchesErrorStart
    ∧ extract_error_snippets_main lines =
        (lines.map clean_line).filter matchesErrorStartMain :=
  ⟨extract_foldl_characterization matchesErrorStart lines [],
   extract_foldl_characterization matchesErrorStartMain lines []⟩

/-- C5 (counterexample): a marker line that also contains the denylisted
structural phrase `coverage:` is nevertheless selected — no noise suppression
exists in the code. -/
theorem coverage_noise_line_still_selected :
    strIn "coverage:" "FAILED: something coverage: xyz" = true
    ∧ extract_error_snippets ["FAILED: something coverage: xyz"] =
        ["FAILED: something coverage: xyz"] := by decide

/-- C5 (amended): the extractor applies no denylist at all — every line whose
cleaned form matches a failure marker contributes its cleaned form to the
candidate list, whatever else the line contains. -/
theorem marker_line_always_selected (lines : List String) (line : String)
    (hmem : line ∈ lines) (hp : matchesErrorStart (clean_line line) = true) :
    clean_line line ∈ extract_error_snippets lines := by
  have h := extract_foldl_characterization matchesErrorStart lines []
  unfold extract_error_snippets
  rw [h]
  simp only [List.nil_append]
  exact List.mem_filter.mpr ⟨List.mem_map_of_mem _ hmem, hp⟩

/-- Witness for C5 (amended): a concrete marker line containing `coverage:`
is selected. -/
theorem marker_line_always_selected_witness :
    "FAILED: a coverage: b" ∈ ["x", "FAILED: a coverage: b"]
    ∧ matchesErrorStart (clean_line "FAILED: a coverage: b") = true
    ∧ clean_line "FAILED: a coverage: b" ∈ extract_error_snippets ["x", "FAILED: a coverage: b"] :=
  ⟨by decide, by decide,
   marker_line_always_selected ["x", "FAILED: a coverage: b"] "FAILED: a coverage: b"
     (by decide) (by decide)⟩

/-- C6 (counterexample): normalization does not collapse runs of
non-alphanumeric characters to a single separator, and the two names of the
claim do not normalize equal: `"Units (devel)"` normalizes (as job key or as
folder) to `"units__devel_"`, while the folder `"units__devel__000"`
normalizes to itself. -/
theorem normalization_not_run_collapsing :
    normKey "Units (devel)" = "units__devel_"
    ∧ normalizeFolder "Units (devel)" = "units__devel_"
    ∧ normalizeFolder "units__devel__000" = "units__devel__000"
    ∧ normKey "Units (devel)" ≠ normalizeFolder "units__devel__000" := by decide

/-- C6 (amended): normalization lowercases and replaces each individual
non-alphanumeric character with an underscore (and strips a leading
digits-plus-underscore prefix from folder names); the two normal forms of the
claim are not equal, but one contains the other, so the bidirectional
substring-containment match succeeds. -/
theorem normalization_containment_match_succeeds :
    strIn (normKey "Units (devel)") (normalizeFolder "units__devel__000") = true
    ∧ match_job_for_log (normalizeFolder "units__devel__000")
        [(normKey "Units (devel)", "Units (devel)")] = some "Units (devel)" := by decide

/-- C10 (counterexample): log decoding uses `errors="ignore"`: an undecodable
byte is dropped, not replaced with U+FFFD. -/
theorem decode_drops_undecodable_bytes :
    utf8DecodeIgnore [255, 65] = ['A']
    ∧ (Char.ofNat 0xFFFD) ∉ utf8DecodeIgnore [255, 65] := by decide

/-- C10 (amended): decoding is a total function (it never raises), undecodable
bytes are dropped, and a file whose read fails contributes nothing while every
other archive entry is still processed: deleting an unreadable entry from the
archive does not change the result. -/
theorem unreadable_entry_skipped (job_lookup : List (String × String))
    (pre post : List ZipEntry) (e : ZipEntry) (h : e.readable = false) :
    processZip job_lookup (pre ++ e :: post) = processZip job_lookup (pre ++ post) := by
  unfold processZip
  rw [List.foldl_append, List.foldl_append, List.foldl_cons,
    processZipStep_unreadable job_lookup _ h]

/-- Witness for C10 (amended): with an unreadable copy of a log interleaved,
processing yields the same report as without it, and the readable log still
produces its snippet. -/
theorem unreadable_entry_skipped_witness :
    ({ path := "0_job_a/1_x.txt", readable := false, bytes := [255] } : ZipEntry).readable = false
    ∧ processZip [("job_a", "Job A")]
        ([] ++ ({ path := "0_job_a/1_x.txt", readable := false, bytes := [255] } : ZipEntry) ::
          [{ path := "1_job_a/2_y.txt", readable := true,
             bytes := "ERROR: boom".data.map Char.toNat }]) =
      processZip [("job_a", "Job A")]
        ([] ++ [{ path := "1_job_a/2_y.txt", readable := true,
                  bytes := "ERROR: boom".data.map Char.toNat }])
    ∧ processZip [("job_a", "Job A")]
        [{ path := "1_job_a/2_y.txt", readable := true,
           bytes := "ERROR: boom".data.map Char.toNat }] = [("Job A", "ERROR: boom")] :=
  ⟨rfl,
   unreadable_entry_skipped [("job_a", "Job A")] []
     [{ path := "1_job_a/2_y.txt", readable := true,
        bytes := "ERROR: boom".data.map Char.toNat }]
     { path := "0_job_a/1_x.txt", readable := false, bytes := [255] } rfl,
   by decide⟩

/-! ### Branch dispatch for the reconciliation pass -/

/-- The pass acts according to its branch classification: guard failures and
the no-evidence branch change nothing; the all-passed and failure branches run
their respective comment/label pipelines. -/
theorem check_eq_outcome_cases (input : CIInput) (s : PRState) :
    check_ci_errors_and_comment input s =
      (match classifyRun input with
       | Outcome.allPassed =>
         let r1 := archive_old_comment s
         let r2 := remove_label r1.1 "stale_ci"
         let r3 := remove_label r2.1 "needs_revision"
         let r4 := add_label r3.1 "success"
         (r4.1, r1.2 ++ r2.2 ++ r3.2 ++ r4.2)
       | Outcome.failedWithEvidence =>
         let body := commentBody (processZip (buildJobLookup input.jobs) input.zipEntries)
         let r1 := post_or_update_comment s body
         let r2 := remove_label r1.1 "success"
         let r3 := remove_label r2.1 "stale_ci"
         let r4 := remove_label r3.1 "needs_revision"
         let r5 := add_label r4.1 "stale_ci"
         let r6 := add_label r5.1 "needs_revision"
         (r6.1, r1.2 ++ r2.2 ++ r3.2 ++ r4.2 ++ r5.2 ++ r6.2)
       | _ => (s, [])) := by
  by_cases h1 : (input.runsCount == 0) = true
  · simp [check_ci_errors_and_comment, classifyRun, h1]
  · by_cases h2 : input.runStatus = "completed"
    · by_cases h3 : input.logsStatus = 200
      · by_cases h4 : input.jobsStatus = 200
        · by_cases h5 : (failedJobs input.jobs).isEmpty = true
          · simp [check_ci_errors_and_comment, classifyRun, h1, h2, h3, h4, h5]
          · by_cases h6 :
              (processZip (buildJobLookup input.jobs) input.zipEntries).isEmpty = true
            · simp [check_ci_errors_and_comment, classifyRun, h1, h2, h3, h4, h5, h6]
            · simp [check_ci_errors_and_comment, classifyRun, h1, h2, h3, h4, h5, h6]
        · simp [check_ci_errors_and_comment, classifyRun, h1, h2, h3, h4]
      · simp [check_ci_errors_and_comment, classifyRun, h1, h2, h3]
    · simp [check_ci_errors_and_comment, classifyRun, h1, h2]

/-! ### Equation lemmas for the label operations -/

theorem remove_label_not_present {s : PRState} {l : String} (h : l ∉ s.labels) :
    remove_label s l = (s, []) := by
  unfold remove_label
  rw [if_neg (by simpa using h)]

theorem remove_label_present {s : PRState} {l : String} (h : l ∈ s.labels) :
    remove_label s l =
      ({ s with labels := s.labels.filter (fun x => !(x == l)) }, [Act.removeLabel l]) := by
  unfold remove_label
  rw [if_pos (by simpa using h)]

theorem add_label_not_present {s : PRState} {l : String} (h : l ∉ s.labels) :
    add_label s l = ({ s with labels := s.labels ++ [l] }, [Act.addLabel l]) := by
  unfold add_label
  rw [if_neg (by simpa using h)]

theorem add_label_present {s : PRState} {l : String} (h : l ∈ s.labels) :
    add_label s l = (s, []) := by
  unfold add_label
  rw [if_pos (by simpa using h)]

/-- C9: a pass whose run has failed jobs but yields no extracted snippet posts
nothing, archives nothing, and leaves the pull request's state (comments and
labels) exactly unchanged. -/
theorem failed_no_evidence_pass_is_noop (input : CIInput) (s : PRState)
    (h : classifyRun input = Outcome.failedNoEvidence) :
    check_ci_errors_and_comment input s = (s, []) := by
  rw [check_eq_outcome_cases, h]

/-- Witness for C9: a concrete run with one failed job and an empty archive is
classified FAILED_NO_EVIDENCE, and the pass leaves a concrete state intact. -/
theorem failed_no_evidence_pass_is_noop_witness :
    classifyRun
        { runsCount := 1, runStatus := "completed", logsStatus := 200, jobsStatus := 200,
          jobs := [{ name := "Units (devel)", conclusion := "failure" }],
          zipEntries := [] } = Outcome.failedNoEvidence
    ∧ check_ci_errors_and_comment
        { runsCount := 1, runStatus := "completed", logsStatus := 200, jobsStatus := 200,
          jobs := [{ name := "Units (devel)", conclusion := "failure" }],
          zipEntries := [] }
        { comments := ["hello"], labels := ["success"] } =
      ({ comments := ["hello"], labels := ["success"] }, []) :=
  ⟨by decide,
   failed_no_evidence_pass_is_noop _ { comments := ["hello"], labels := ["success"] }
     (by decide)⟩

/-! ### The two label pipelines -/

theorem fwe_pipeline_comments (s : PRState) (B : String) :
    (add_label (add_label (remove_label (remove_label (remove_label
      (post_or_update_comment s B).1 "success").1 "stale_ci").1 "needs_revision").1
        "stale_ci").1 "needs_revision").1.comments =
    (post_or_update_comment s B).1.comments := by
  simp [add_label_comments, remove_label_comments]

/-- Appending the two failure labels to a state containing neither. -/
theorem add_two_failure_labels (t : PRState)
    (hst : "stale_ci" ∉ t.labels) (hnd : "needs_revision" ∉ t.labels) :
    (add_label (add_label t "stale_ci").1 "needs_revision").1.labels =
      t.labels ++ ["stale_ci", "needs_revision"] := by
  rw [add_label_not_present hst]
  have hnd2 : "needs_revision" ∉ t.labels ++ ["stale_ci"] := by
    simp only [List.mem_append, List.mem_singleton]
    rintro (h | h)
    · exact hnd h
    · exact absurd h (by decide)
  rw [add_label_not_present hnd2]
  simp

theorem fwe_pipeline_labels (s : PRState) (B : String) :
    (add_label (add_label (remove_label (remove_label (remove_label
      (post_or_update_comment s B).1 "success").1 "stale_ci").1 "needs_revision").1
        "stale_ci").1 "needs_revision").1.labels =
    (((s.labels.filter (fun x => !(x == "success"))).filter
        (fun x => !(x == "stale_ci"))).filter (fun x => !(x == "needs_revision")))
      ++ ["stale_ci", "needs_revision"] := by
  have l4 : (remove_label (remove_label (remove_label
      (post_or_update_comment s B).1 "success").1 "stale_ci").1 "needs_revision").1.labels =
      ((s.labels.filter (fun x => !(x == "success"))).filter
        (fun x => !(x == "stale_ci"))).filter (fun x => !(x == "needs_revision")) := by
    rw [remove_label_labels, remove_label_labels, remove_label_labels,
      post_or_update_comment_labels]
  have hst : "stale_ci" ∉ (remove_label (remove_label (remove_label
      (post_or_update_comment s B).1 "success").1 "stale_ci").1 "needs_revision").1.labels := by
    rw [l4]
    intro hmem
    have := (List.mem_filter.mp (List.mem_filter.mp hmem).1).2
    simp at this
  have hnd : "needs_revision" ∉ (remove_label (remove_label (remove_label
      (post_or_update_comment s B).1 "success").1 "stale_ci").1 "needs_revision").1.labels := by
    rw [l4]
    intro hmem
    have := (List.mem_filter.mp hmem).2
    simp at this
  rw [add_two_failure_labels _ hst hnd, l4]

theorem allpassed_pipeline_mem (s : PRState) (x : String) :
    x ∈ (add_label (remove_label (remove_label
        (archive_old_comment s).1 "stale_ci").1 "needs_revision").1 "success").1.labels ↔
      ((x ∈ s.labels ∧ x ≠ "stale_ci" ∧ x ≠ "needs_revision") ∨ x = "success") := by
  rw [mem_add_label, mem_remove_label, mem_remove_label]
  have : (archive_old_comment s).1.labels = s.labels := archive_old_comment_labels s
  rw [this]
  tauto

/-- Membership facts about the final label set of the failure pipeline. -/
theorem fwe_pipeline_labels_mem (s : PRState) (B : String) :
    "stale_ci" ∈ (add_label (add_label (remove_label (remove_label (remove_label
        (post_or_update_comment s B).1 "success").1 "stale_ci").1 "needs_revision").1
          "stale_ci").1 "needs_revision").1.labels
    ∧ "needs_revision" ∈ (add_label (add_label (remove_label (remove_label (remove_label
        (post_or_update_comment s B).1 "success").1 "stale_ci").1 "needs_revision").1
          "stale_ci").1 "needs_revision").1.labels
    ∧ "success" ∉ (add_label (add_label (remove_label (remove_label (remove_label
        (post_or_update_comment s B).1 "success").1 "stale_ci").1 "needs_revision").1
          "stale_ci").1 "needs_revision").1.labels := by
  rw [fwe_pipeline_labels]
  refine ⟨by simp, by simp, ?_⟩
  intro hmem
  rcases List.mem_append.mp hmem with h | h
  · have hx := (List.mem_filter.mp (List.mem_filter.mp (List.mem_filter.mp h).1).1).2
    simp at hx
  · simp at h

/-- With all fetch guards satisfied, the classification reduces to the
three-way outcome split. -/
theorem classifyRun_reduce (input : CIInput)
    (h1 : input.runsCount ≠ 0) (h2 : input.runStatus = "completed")
    (h3 : input.logsStatus = 200) (h4 : input.jobsStatus = 200) :
    classifyRun input =
      if (failedJobs input.jobs).isEmpty then Outcome.allPassed
      else if (processZip (buildJobLookup input.jobs) input.zipEntries).isEmpty then
        Outcome.failedNoEvidence
      else Outcome.failedWithEvidence := by
  have hb1 : (input.runsCount == 0) = false := beq_eq_false_iff_ne.mpr h1
  unfold classifyRun
  simp [hb1, h2, h3, h4]

/-- C2: with the fetch guards satisfied, the outcome is a three-way split
evaluated in order: no failed job ⇒ ALL_PASSED regardless of log content; a
failed job with an empty snippet report ⇒ FAILED_NO_EVIDENCE; a nonempty
report ⇒ FAILED_WITH_EVIDENCE, upon which the comment write and the failure
label transitions run. -/
theorem outcome_classification_three_way (input : CIInput) (s : PRState)
    (h1 : input.runsCount ≠ 0) (h2 : input.runStatus = "completed")
    (h3 : input.logsStatus = 200) (h4 : input.jobsStatus = 200) :
    ((∀ j ∈ input.jobs, j.conclusion ≠ "failure") → classifyRun input = Outcome.allPassed)
    ∧ ((∃ j ∈ input.jobs, j.conclusion = "failure") →
        processZip (buildJobLookup input.jobs) input.zipEntries = [] →
        classifyRun input = Outcome.failedNoEvidence)
    ∧ ((∃ j ∈ input.jobs, j.conclusion = "failure") →
        processZip (buildJobLookup input.jobs) input.zipEntries ≠ [] →
        classifyRun input = Outcome.failedWithEvidence
        ∧ "stale_ci" ∈ (check_ci_errors_and_comment input s).1.labels
        ∧ "needs_revision" ∈ (check_ci_errors_and_comment input s).1.labels
        ∧ "success" ∉ (check_ci_errors_and_comment input s).1.labels
        ∧ (check_ci_errors_and_comment input s).1.comments =
            (post_or_update_comment s
              (commentBody (processZip (buildJobLookup input.jobs) input.zipEntries))).1.comments) := by
  rw [classifyRun_reduce input h1 h2 h3 h4]
  refine ⟨?_, ?_, ?_⟩
  · intro hall
    have : failedJobs input.jobs = [] := (failedJobs_eq_nil_iff input.jobs).mpr hall
    simp [this]
  · rintro ⟨j, hj, hfail⟩ hempty
    have hne : failedJobs input.jobs ≠ [] := by
      intro hnil
      exact (failedJobs_eq_nil_iff input.jobs).mp hnil j hj hfail
    have hje : (failedJobs input.jobs).isEmpty = false := by
      simpa [List.isEmpty_iff] using hne
    simp [hje, hempty]
  · rintro ⟨j, hj, hfail⟩ hne2
    have hne : failedJobs input.jobs ≠ [] := by
      intro hnil
      exact (failedJobs_eq_nil_iff input.jobs).mp hnil j hj hfail
    have hje : (failedJobs input.jobs).isEmpty = false := by
      simpa [List.isEmpty_iff] using hne
    have hze : (processZip (buildJobLookup input.jobs) input.zipEntries).isEmpty = false := by
      simpa [List.isEmpty_iff] using hne2
    have hcl : classifyRun input = Outcome.failedWithEvidence := by
      rw [classifyRun_reduce input h1 h2 h3 h4]
      simp [hje, hze]
    refine ⟨by simp [hje, hze], ?_, ?_, ?_, ?_⟩ <;>
      rw [check_eq_outcome_cases, hcl] <;> simp only []
    · exact (fwe_pipeline_labels_mem s _).1
    · exact (fwe_pipeline_labels_mem s _).2.1
    · exact (fwe_pipeline_labels_mem s _).2.2
    · exact fwe_pipeline_comments s _

/-- Witness for C2: the three-way split at a concrete failing run with
evidence. -/
theorem outcome_classification_three_way_witness :
    sampleFweInput.runsCount ≠ 0
    ∧ sampleFweInput.runStatus = "completed"
    ∧ (∃ j ∈ sampleFweInput.jobs, j.conclusion = "failure")
    ∧ processZip (buildJobLookup sampleFweInput.jobs) sampleFweInput.zipEntries ≠ []
    ∧ classifyRun sampleFweInput = Outcome.failedWithEvidence
    ∧ "stale_ci" ∈ (check_ci_errors_and_comment sampleFweInput emptyPR).1.labels := by
  have h := outcome_classification_three_way sampleFweInput emptyPR (by decide) rfl rfl rfl
  have hex : ∃ j ∈ sampleFweInput.jobs, j.conclusion = "failure" :=
    ⟨{ name := "Units (devel)", conclusion := "failure" }, by decide, rfl⟩
  have h3 := h.2.2 hex (by decide)
  exact ⟨by decide, rfl, hex, by decide, h3.1, h3.2.1⟩

/-- C8 (counterexample): a FAILED_NO_EVIDENCE pass leaves a pre-existing
conflicted label set untouched, so after that pass `success` and `stale_ci`
are simultaneously present — the claimed invariant does not hold after *any*
pass. -/
theorem label_exclusion_not_universal :
    check_ci_errors_and_comment sampleFneInput conflictedPR = (conflictedPR, [])
    ∧ "success" ∈ (check_ci_errors_and_comment sampleFneInput conflictedPR).1.labels
    ∧ "stale_ci" ∈ (check_ci_errors_and_comment sampleFneInput conflictedPR).1.labels := by
  decide

/-- C8 (amended): the ALL_PASSED and FAILED_WITH_EVIDENCE branches establish
the mutual exclusion of `success` with `stale_ci`/`needs_revision`
unconditionally, and every pass preserves the exclusion when it already held
before the pass. -/
theorem label_exclusion_established_and_preserved (input : CIInput) (s : PRState) :
    ((classifyRun input = Outcome.allPassed ∨ classifyRun input = Outcome.failedWithEvidence) →
      ¬("success" ∈ (check_ci_errors_and_comment input s).1.labels ∧
        "stale_ci" ∈ (check_ci_errors_and_comment input s).1.labels)
      ∧ ¬("success" ∈ (check_ci_errors_and_comment input s).1.labels ∧
        "needs_revision" ∈ (check_ci_errors_and_comment input s).1.labels))
    ∧ ((¬("success" ∈ s.labels ∧ "stale_ci" ∈ s.labels)
        ∧ ¬("success" ∈ s.labels ∧ "needs_revision" ∈ s.labels)) →
      ¬("success" ∈ (check_ci_errors_and_comment input s).1.labels ∧
        "stale_ci" ∈ (check_ci_errors_and_comment input s).1.labels)
      ∧ ¬("success" ∈ (check_ci_errors_and_comment input s).1.labels ∧
        "needs_revision" ∈ (check_ci_errors_and_comment input s).1.labels)) := by
  cases hcl : classifyRun input <;> rw [check_eq_outcome_cases, hcl] <;> simp only []
  case noRuns =>
    exact ⟨fun h => absurd h (by rintro (h | h) <;> exact absurd h (by decide)), fun h => h⟩
  case stillRunning =>
    exact ⟨fun h => absurd h (by rintro (h | h) <;> exact absurd h (by decide)), fun h => h⟩
  case logsDownloadFailed =>
    exact ⟨fun h => absurd h (by rintro (h | h) <;> exact absurd h (by decide)), fun h => h⟩
  case jobsFetchFailed =>
    exact ⟨fun h => absurd h (by rintro (h | h) <;> exact absurd h (by decide)), fun h => h⟩
  case failedNoEvidence =>
    exact ⟨fun h => absurd h (by rintro (h | h) <;> exact absurd h (by decide)), fun h => h⟩
  case allPassed =>
    have key :
        ¬("success" ∈ (add_label (remove_label (remove_label
            (archive_old_comment s).1 "stale_ci").1 "needs_revision").1 "success").1.labels ∧
          "stale_ci" ∈ (add_label (remove_label (remove_label
            (archive_old_comment s).1 "stale_ci").1 "needs_revision").1 "success").1.labels)
        ∧ ¬("success" ∈ (add_label (remove_label (remove_label
            (archive_old_comment s).1 "stale_ci").1 "needs_revision").1 "success").1.labels ∧
          "needs_revision" ∈ (add_label (remove_label (remove_label
            (archive_old_comment s).1 "stale_ci").1 "needs_revision").1 "success").1.labels) := by
      constructor
      · rintro ⟨-, hst⟩
        rcases (allpassed_pipeline_mem s "stale_ci").mp hst with ⟨-, hne, -⟩ | heq
        · exact hne rfl
        · exact absurd heq (by decide)
      · rintro ⟨-, hnd⟩
        rcases (allpassed_pipeline_mem s "needs_revision").mp hnd with ⟨-, -, hne⟩ | heq
        · exact hne rfl
        · exact absurd heq (by decide)
    exact ⟨fun _ => key, fun _ => key⟩
  case failedWithEvidence =>
    have hsucc := (fwe_pipeline_labels_mem s
      (commentBody (processZip (buildJobLookup input.jobs) input.zipEntries))).2.2
    exact ⟨fun _ => ⟨fun h => hsucc h.1, fun h => hsucc h.1⟩,
           fun _ => ⟨fun h => hsucc h.1, fun h => hsucc h.1⟩⟩

/-- Witness for C8 (amended): at a concrete all-passed run on a conflicted
state, the pass reestablishes the exclusion. -/
theorem label_exclusion_established_and_preserved_witness :
    classifyRun
        { runsCount := 1, runStatus := "completed", logsStatus := 200, jobsStatus := 200,
          jobs := [{ name := "J", conclusion := "success" }], zipEntries := [] } =
      Outcome.allPassed
    ∧ ¬("success" ∈ (check_ci_errors_and_comment
          { runsCount := 1, runStatus := "completed", logsStatus := 200, jobsStatus := 200,
            jobs := [{ name := "J", conclusion := "success" }], zipEntries := [] }
          conflictedPR).1.labels ∧
        "stale_ci" ∈ (check_ci_errors_and_comment
          { runsCount := 1, runStatus := "completed", logsStatus := 200, jobsStatus := 200,
            jobs := [{ name := "J", conclusion := "success" }], zipEntries := [] }
          conflictedPR).1.labels) :=
  ⟨by decide,
   ((label_exclusion_established_and_preserved
      { runsCount := 1, runStatus := "completed", logsStatus := 200, jobsStatus := 200,
        jobs := [{ name := "J", conclusion := "success" }], zipEntries := [] }
      conflictedPR).1 (Or.inl (by decide))).1⟩

/-! ### Equation lemmas for the comment operations -/

theorem archive_eq_of_none {s : PRState}
    (hg : (s.comments.filter isBotComment).getLast? = none) :
    archive_old_comment s = (s, []) := by
  unfold archive_old_comment
  rw [hg]

theorem archive_eq_of_archived {s : PRState} {latest : String}
    (hg : (s.comments.filter isBotComment).getLast? = some latest)
    (ha : isArchivedComment latest = true) :
    archive_old_comment s = (s, []) := by
  unfold archive_old_comment
  rw [hg]
  simp [ha]

theorem archive_eq_of_active {s : PRState} {latest : String}
    (hg : (s.comments.filter isBotComment).getLast? = some latest)
    (ha : isArchivedComment latest = false) :
    archive_old_comment s =
      ({ s with comments :=
          replaceLastSat isBotComment (fun _ => archiveWrap latest) s.comments },
       [Act.editComment (archiveWrap latest)]) := by
  unfold archive_old_comment
  rw [hg]
  simp [ha]

theorem post_eq_of_none {s : PRState} {B : String}
    (hg : (s.comments.filter isBotComment).getLast? = none) :
    post_or_update_comment s B =
      ({ s with comments := s.comments ++ [B] }, [Act.postComment B]) := by
  unfold post_or_update_comment
  rw [hg]

theorem post_eq_of_same {s : PRState} {B last : String}
    (hg : (s.comments.filter isBotComment).getLast? = some last)
    (he : pstrip B = pstrip last) :
    post_or_update_comment s B = (s, []) := by
  unfold post_or_update_comment
  rw [hg]
  simp [he]

theorem post_eq_of_different {s : PRState} {B last : String}
    (hg : (s.comments.filter isBotComment).getLast? = some last)
    (he : pstrip B ≠ pstrip last) :
    post_or_update_comment s B =
      ({ (archive_old_comment s).1 with
          comments := (archive_old_comment s).1.comments ++ [B] },
       (archive_old_comment s).2 ++ [Act.postComment B]) := by
  unfold post_or_update_comment
  rw [hg]
  simp [he]

/-- After `post_or_update_comment s B` (for a marker body `B`), the most
recent marker comment of the resulting history strips to the same text as
`B`. -/
theorem post_result_lastBot (s : PRState) (B : String) (hB : isBotComment B = true) :
    ∃ L, ((post_or_update_comment s B).1.comments.filter isBotComment).getLast? = some L
      ∧ pstrip L = pstrip B := by
  cases hg : (s.comments.filter isBotComment).getLast? with
  | none =>
    refine ⟨B, ?_, rfl⟩
    rw [post_eq_of_none hg]
    simp only [List.filter_append]
    rw [show (List.filter isBotComment [B]) = [B] by simp [hB]]
    exact List.getLast?_concat _
  | some last =>
    by_cases he : pstrip B = pstrip last
    · exact ⟨last, by rw [post_eq_of_same hg he]; exact hg, he.symm⟩
    · refine ⟨B, ?_, rfl⟩
      rw [post_eq_of_different hg he]
      simp only [List.filter_append]
      rw [show (List.filter isBotComment [B]) = [B] by simp [hB]]
      exact List.getLast?_concat _

/-- A second `post_or_update_comment` with the same body always skips: it
returns the state unchanged and performs no write. -/
theorem post_or_update_skips_after_post (s0 s1 : PRState) (B : String)
    (hB : isBotComment B = true)
    (hc : s1.comments = (post_or_update_comment s0 B).1.comments) :
    post_or_update_comment s1 B = (s1, []) := by
  obtain ⟨L, hL, hLe⟩ := post_result_lastBot s0 B hB
  rw [← hc] at hL
  exact post_eq_of_same hL hLe.symm

/-- A FAILED_WITH_EVIDENCE pass on a state that already carries exactly the
failure labels (and whose comment history makes the comment write skip)
returns the state unchanged, performing only the four redundant label
updates. -/
theorem check_fwe_second_pass (input : CIInput) (t : PRState) (M : List String)
    (h : classifyRun input = Outcome.failedWithEvidence)
    (hl : t.labels = M ++ ["stale_ci", "needs_revision"])
    (hMst : "stale_ci" ∉ M) (hMnd : "needs_revision" ∉ M) (hMsucc : "success" ∉ M)
    (hpost : post_or_update_comment t
      (commentBody (processZip (buildJobLookup input.jobs) input.zipEntries)) = (t, [])) :
    check_ci_errors_and_comment input t =
      (t, [Act.removeLabel "stale_ci", Act.removeLabel "needs_revision",
           Act.addLabel "stale_ci", Act.addLabel "needs_revision"]) := by
  have hsucc_t : "success" ∉ t.labels := by
    rw [hl]
    simp only [List.mem_append, List.mem_cons, List.mem_singleton]
    rintro (hm | hm | hm)
    · exact hMsucc hm
    · exact absurd hm (by decide)
    · exact absurd hm (by decide)
  have hst_t : "stale_ci" ∈ t.labels := by rw [hl]; simp
  have e3 : t.labels.filter (fun x => !(x == "stale_ci")) = M ++ ["needs_revision"] := by
    rw [hl, List.filter_append,
      List.filter_eq_self.mpr (fun x hx => by
        simp only [Bool.not_eq_true', beq_eq_false_iff_ne]
        exact fun e => hMst (e ▸ hx)),
      show List.filter (fun x => !(x == "stale_ci")) ["stale_ci", "needs_revision"] =
        ["needs_revision"] by decide]
  have e4 : (M ++ ["needs_revision"]).filter (fun x => !(x == "needs_revision")) = M := by
    rw [List.filter_append]
    rw [List.filter_eq_self.mpr (fun x hx => by
      simp only [Bool.not_eq_true', beq_eq_false_iff_ne]
      exact fun e => hMnd (e ▸ hx))]
    simp
  have hr2 : remove_label t "success" = (t, []) := remove_label_not_present hsucc_t
  have hr3 : remove_label t "stale_ci" =
      ((⟨t.comments, M ++ ["needs_revision"]⟩ : PRState), [Act.removeLabel "stale_ci"]) := by
    rw [remove_label_present hst_t, e3]
  have hr4 : remove_label (⟨t.comments, M ++ ["needs_revision"]⟩ : PRState) "needs_revision" =
      ((⟨t.comments, M⟩ : PRState), [Act.removeLabel "needs_revision"]) := by
    rw [remove_label_present (by simp :
      "needs_revision" ∈ (⟨t.comments, M ++ ["needs_revision"]⟩ : PRState).labels)]
    show ((⟨t.comments, (M ++ ["needs_revision"]).filter _⟩ : PRState), _) = _
    rw [e4]
  have hr5 : add_label (⟨t.comments, M⟩ : PRState) "stale_ci" =
      ((⟨t.comments, M ++ ["stale_ci"]⟩ : PRState), [Act.addLabel "stale_ci"]) := by
    rw [add_label_not_present (show "stale_ci" ∉ (⟨t.comments, M⟩ : PRState).labels from hMst)]
  have hnd56 : "needs_revision" ∉ (⟨t.comments, M ++ ["stale_ci"]⟩ : PRState).labels := by
    simp only [List.mem_append, List.mem_singleton]
    rintro (hm | hm)
    · exact hMnd hm
    · exact absurd hm (by decide)
  have hr6 : add_label (⟨t.comments, M ++ ["stale_ci"]⟩ : PRState) "needs_revision" =
      ((⟨t.comments, (M ++ ["stale_ci"]) ++ ["needs_revision"]⟩ : PRState),
       [Act.addLabel "needs_revision"]) := by
    rw [add_label_not_present hnd56]
  rw [check_eq_outcome_cases input t, h]
  simp only [hpost, hr2, hr3, hr4, hr5, hr6]
  rw [Prod.ext_iff]
  constructor
  · apply PRState.ext
    · rfl
    · show (M ++ ["stale_ci"]) ++ ["needs_revision"] = t.labels
      rw [hl]
      simp
  · simp

/-- C1: reconciler idempotence.  A second FAILED_WITH_EVIDENCE pass with the
same inputs (hence an unchanged failure report, whose comment body strips
equal to the most recent bot comment posted by the first pass) posts no
comment, performs no archive edit, and returns the state — in particular the
label set — of the first pass exactly unchanged. -/
theorem reconciler_second_pass_idempotent (input : CIInput) (s0 : PRState)
    (h : classifyRun input = Outcome.failedWithEvidence) :
    check_ci_errors_and_comment input (check_ci_errors_and_comment input s0).1 =
      ((check_ci_errors_and_comment input s0).1,
       [Act.removeLabel "stale_ci", Act.removeLabel "needs_revision",
        Act.addLabel "stale_ci", Act.addLabel "needs_revision"])
    ∧ (∀ b, Act.postComment b ∉
        (check_ci_errors_and_comment input (check_ci_errors_and_comment input s0).1).2)
    ∧ (∀ b, Act.editComment b ∉
        (check_ci_errors_and_comment input (check_ci_errors_and_comment input s0).1).2)
    ∧ (check_ci_errors_and_comment input (check_ci_errors_and_comment input s0).1).1.labels =
        (check_ci_errors_and_comment input s0).1.labels := by
  have hcom : (check_ci_errors_and_comment input s0).1.comments =
      (post_or_update_comment s0
        (commentBody (processZip (buildJobLookup input.jobs) input.zipEntries))).1.comments := by
    rw [check_eq_outcome_cases input s0, h]
    exact fwe_pipeline_comments s0 _
  have hlab : (check_ci_errors_and_comment input s0).1.labels =
      (((s0.labels.filter (fun x => !(x == "success"))).filter
          (fun x => !(x == "stale_ci"))).filter (fun x => !(x == "needs_revision")))
        ++ ["stale_ci", "needs_revision"] := by
    rw [check_eq_outcome_cases input s0, h]
    exact fwe_pipeline_labels s0 _
  have hMst : "stale_ci" ∉ ((s0.labels.filter (fun x => !(x == "success"))).filter
      (fun x => !(x == "stale_ci"))).filter (fun x => !(x == "needs_revision")) := by
    intro hmem
    have := (List.mem_filter.mp (List.mem_filter.mp hmem).1).2
    simp at this
  have hMnd : "needs_revision" ∉ ((s0.labels.filter (fun x => !(x == "success"))).filter
      (fun x => !(x == "stale_ci"))).filter (fun x => !(x == "needs_revision")) := by
    intro hmem
    have := (List.mem_filter.mp hmem).2
    simp at this
  have hMsucc : "success" ∉ ((s0.labels.filter (fun x => !(x == "success"))).filter
      (fun x => !(x == "stale_ci"))).filter (fun x => !(x == "needs_revision")) := by
    intro hmem
    have := (List.mem_filter.mp (List.mem_filter.mp (List.mem_filter.mp hmem).1).1).2
    simp at this
  have hpost : post_or_update_comment (check_ci_errors_and_comment input s0).1
      (commentBody (processZip (buildJobLookup input.jobs) input.zipEntries)) =
      ((check_ci_errors_and_comment input s0).1, []) :=
    post_or_update_skips_after_post s0 _ _ (isBotComment_commentBody _) hcom
  have main := check_fwe_second_pass input (check_ci_errors_and_comment input s0).1 _
    h hlab hMst hMnd hMsucc hpost
  refine ⟨main, ?_, ?_, ?_⟩ <;> rw [main] <;> simp

/-- Witness for C1: at a concrete failing run with evidence, the second pass
returns the first pass's state unchanged with only redundant label updates. -/
theorem reconciler_second_pass_idempotent_witness :
    classifyRun sampleFweInput = Outcome.failedWithEvidence
    ∧ check_ci_errors_and_comment sampleFweInput
        (check_ci_errors_and_comment sampleFweInput emptyPR).1 =
      ((check_ci_errors_and_comment sampleFweInput emptyPR).1,
       [Act.removeLabel "stale_ci", Act.removeLabel "needs_revision",
        Act.addLabel "stale_ci", Act.addLabel "needs_revision"]) :=
  ⟨by decide, (reconciler_second_pass_idempotent sampleFweInput emptyPR (by decide)).1⟩

/-! ### Comment-history machinery for the archival claims -/

theorem mem_of_getLast?_eq {l : List String} {a : String} (h : l.getLast? = some a) :
    a ∈ l := by
  have hne : l ≠ [] := by rintro rfl; cases h
  rw [List.getLast?_eq_getLast l hne] at h
  injection h with h'
  rw [← h']
  exact List.getLast_mem hne

theorem getLast?_cons_ne_nil {a : String} {l : List String} (h : l ≠ []) :
    (a :: l).getLast? = l.getLast? := by
  cases l with
  | nil => exact absurd rfl h
  | cons b t => rfl

theorem filter_ne_nil_of_any {p : String → Bool} {l : List String} (h : l.any p = true) :
    l.filter p ≠ [] := by
  obtain ⟨x, hx, hpx⟩ := List.any_eq_true.mp h
  exact List.ne_nil_of_mem (List.mem_filter.mpr ⟨hx, hpx⟩)

theorem filter_eq_nil_of_not_any {p : String → Bool} {l : List String} (h : l.any p = false) :
    l.filter p = [] := by
  rw [List.filter_eq_nil_iff]
  intro a ha
  simp only [List.any_eq_false] at h
  simp [h a ha]

theorem filter_cons_getLast? {p : String → Bool} (x : String) {xs : List String}
    (h : xs.filter p ≠ []) :
    ((x :: xs).filter p).getLast? = (xs.filter p).getLast? := by
  rw [List.filter_cons]
  split
  · exact getLast?_cons_ne_nil h
  · rfl

/-- Filtering after replacing the last `p`-element: the replaced element is the
last of the old filter, and the rest is untouched. -/
theorem filter_replaceLastSat (p : String → Bool) (f : String → String) :
    ∀ (cs : List String) (L : String), (cs.filter p).getLast? = some L → p (f L) = true →
      (replaceLastSat p f cs).filter p = (cs.filter p).dropLast ++ [f L] := by
  intro cs
  induction cs with
  | nil => intro L hL _; cases hL
  | cons x xs ih =>
    intro L hL hf
    by_cases hany : xs.any p = true
    · have hxs : xs.filter p ≠ [] := filter_ne_nil_of_any hany
      have hL' : (xs.filter p).getLast? = some L := by
        rw [← filter_cons_getLast? x hxs]; exact hL
      have hrepl : replaceLastSat p f (x :: xs) = x :: replaceLastSat p f xs := by
        simp [replaceLastSat, hany]
      rw [hrepl, List.filter_cons, List.filter_cons]
      by_cases hx : p x = true
      · simp only [hx, if_true]
        rw [ih L hL' hf, List.dropLast_cons_of_ne_nil hxs]
        rfl
      · simp only [Bool.not_eq_true] at hx
        simp only [hx]
        exact ih L hL' hf
    · have hany' : xs.any p = false := by simpa using hany
      have hxs0 : xs.filter p = [] := filter_eq_nil_of_not_any hany'
      by_cases hx : p x = true
      · have hfx : (x :: xs).filter p = [x] := by rw [List.filter_cons]; simp [hx, hxs0]
        have hLx : L = x := by
          rw [hfx] at hL
          injection hL with h'
          exact h'.symm
        have hrepl : replaceLastSat p f (x :: xs) = f x :: xs := by
          simp [replaceLastSat, hany', hx]
        rw [hrepl, List.filter_cons, hLx, hfx]
        simp [hf, hLx ▸ hf, hxs0]
      · have hfx : (x :: xs).filter p = [] := by
          rw [List.filter_cons]
          simp only [Bool.not_eq_true] at hx
          simp [hx, hxs0]
        rw [hfx] at hL
        cases hL

/-- Replacing the last `p`-element leaves every position holding a value
different from that element unchanged. -/
theorem replaceLastSat_getElem_stable (p : String → Bool) (f : String → String) :
    ∀ (cs : List String) (i : Nat) (c : String), cs[i]? = some c →
      (∀ L, (cs.filter p).getLast? = some L → c ≠ L) →
      (replaceLastSat p f cs)[i]? = some c := by
  intro cs
  induction cs with
  | nil => intro i c hc _; rw [List.getElem?_nil] at hc; cases hc
  | cons x xs ih =>
    intro i c hc hdiff
    by_cases hany : xs.any p = true
    · have hxs : xs.filter p ≠ [] := filter_ne_nil_of_any hany
      have hrepl : replaceLastSat p f (x :: xs) = x :: replaceLastSat p f xs := by
        simp [replaceLastSat, hany]
      rw [hrepl]
      cases i with
      | zero => rw [List.getElem?_cons_zero] at hc ⊢; exact hc
      | succ i =>
        rw [List.getElem?_cons_succ] at hc ⊢
        exact ih i c hc (fun L hL => hdiff L (by rw [filter_cons_getLast? x hxs]; exact hL))
    · have hany' : xs.any p = false := by simpa using hany
      have hxs0 : xs.filter p = [] := filter_eq_nil_of_not_any hany'
      by_cases hx : p x = true
      · have hrepl : replaceLastSat p f (x :: xs) = f x :: xs := by
          simp [replaceLastSat, hany', hx]
        rw [hrepl]
        cases i with
        | zero =>
          rw [List.getElem?_cons_zero] at hc
          injection hc with h'
          exfalso
          refine hdiff x ?_ h'.symm
          rw [List.filter_cons]
          simp [hx, hxs0]
        | succ i =>
          rw [List.getElem?_cons_succ] at hc ⊢
          exact hc
      · have hrepl : replaceLastSat p f (x :: xs) = x :: xs := by
          simp only [Bool.not_eq_true] at hx
          simp [replaceLastSat, hany', hx]
        rw [hrepl]
        exact hc

/-- Under the archival invariant, the spec's active comment is exactly the
comment the code selects (the most recent marker comment), and it is not yet
archived. -/
theorem inv_active_eq_code_selection {cs : List String}
    (hInv : BotCommentsArchivedInv cs) {a : String}
    (ha : specActiveComment cs = some a) :
    (cs.filter isBotComment).getLast? = some a ∧ isArchivedComment a = false := by
  unfold specActiveComment at ha
  have hmem := mem_of_getLast?_eq ha
  obtain ⟨hacs, hprop⟩ := List.mem_filter.mp hmem
  simp only [Bool.and_eq_true, Bool.not_eq_true'] at hprop
  obtain ⟨hbot, harch'⟩ := hprop
  have hmemb : a ∈ cs.filter isBotComment := List.mem_filter.mpr ⟨hacs, hbot⟩
  have hne : cs.filter isBotComment ≠ [] := List.ne_nil_of_mem hmemb
  have hsplit := List.dropLast_append_getLast hne
  have : a = (cs.filter isBotComment).getLast hne := by
    rcases List.mem_append.mp (hsplit ▸ hmemb) with hmem' | hmem'
    · exact absurd (hInv a hmem') (by simp [harch'])
    · simpa using hmem'
  exact ⟨by rw [List.getLast?_eq_getLast _ hne, ← this], harch'⟩

/-- A comment already wrapped in the archival container is never selected as
the active comment, in any comment history. -/
theorem specActive_not_archived (cs : List String) {c : String}
    (hc : isArchivedComment c = true) : specActiveComment cs ≠ some c := by
  intro h
  have hmem := mem_of_getLast?_eq h
  have := (List.mem_filter.mp hmem).2
  rw [Bool.and_eq_true] at this
  simp [hc] at this

/-- `archive_old_comment` never changes a position holding an archived
comment. -/
theorem archive_preserves_archived (s : PRState) (i : Nat) (c : String)
    (hc : s.comments[i]? = some c) (ha : isArchivedComment c = true) :
    (archive_old_comment s).1.comments[i]? = some c := by
  cases hg : (s.comments.filter isBotComment).getLast? with
  | none => rw [archive_eq_of_none hg]; exact hc
  | some latest =>
    cases hl : isArchivedComment latest with
    | true => rw [archive_eq_of_archived hg hl]; exact hc
    | false =>
      rw [archive_eq_of_active hg hl]
      apply replaceLastSat_getElem_stable _ _ _ _ _ hc
      intro L hL hEq
      rw [hg] at hL
      injection hL with h'
      subst h'
      subst hEq
      rw [ha] at hl
      cases hl

/-- Bound for `getElem?` returning a value. -/
theorem lt_length_of_getElem? {l : List String} {i : Nat} {c : String}
    (h : l[i]? = some c) : i < l.length := by
  by_contra hlt
  push_neg at hlt
  rw [List.getElem?_eq_none hlt] at h
  cases h

/-- `post_or_update_comment` never changes a position holding an archived
comment. -/
theorem post_preserves_archived (s : PRState) (b : String) (i : Nat) (c : String)
    (hc : s.comments[i]? = some c) (ha : isArchivedComment c = true) :
    (post_or_update_comment s b).1.comments[i]? = some c := by
  cases hg : (s.comments.filter isBotComment).getLast? with
  | none =>
    rw [post_eq_of_none hg]
    show (s.comments ++ [b])[i]? = some c
    rw [List.getElem?_append_left (lt_length_of_getElem? hc)]
    exact hc
  | some last =>
    by_cases he : pstrip b = pstrip last
    · rw [post_eq_of_same hg he]; exact hc
    · rw [post_eq_of_different hg he]
      show ((archive_old_comment s).1.comments ++ [b])[i]? = some c
      have harch := archive_preserves_archived s i c hc ha
      rw [List.getElem?_append_left (lt_length_of_getElem? harch)]
      exact harch

/-- After `archive_old_comment` on an invariant-satisfying history, every
marker comment is archived. -/
theorem archive_filter_all_archived (s : PRState)
    (hInv : BotCommentsArchivedInv s.comments) :
    ∀ c ∈ (archive_old_comment s).1.comments.filter isBotComment,
      isArchivedComment c = true := by
  cases hg : (s.comments.filter isBotComment).getLast? with
  | none =>
    rw [archive_eq_of_none hg]
    intro c hc
    rw [List.getLast?_eq_none_iff.mp hg] at hc
    cases hc
  | some latest =>
    cases hl : isArchivedComment latest with
    | true =>
      rw [archive_eq_of_archived hg hl]
      intro c hc
      have hne : s.comments.filter isBotComment ≠ [] := by
        rintro hnil; rw [hnil] at hg; cases hg
      rw [← List.dropLast_append_getLast hne] at hc
      rcases List.mem_append.mp hc with hm | hm
      · exact hInv c hm
      · have hlatest : (s.comments.filter isBotComment).getLast hne = latest := by
          have := List.getLast?_eq_getLast _ hne
          rw [hg] at this
          injection this with h'
          exact h'.symm
        rw [List.mem_singleton.mp hm, hlatest]
        exact hl
    | false =>
      rw [archive_eq_of_active hg hl]
      intro c hc
      have hbotlatest : isBotComment latest = true :=
        (List.mem_filter.mp (mem_of_getLast?_eq hg)).2
      have hwrap : isBotComment (archiveWrap latest) = true :=
        isBotComment_archiveWrap hbotlatest
      rw [show ({ s with comments :=
            replaceLastSat isBotComment (fun _ => archiveWrap latest) s.comments } :
            PRState).comments =
          replaceLastSat isBotComment (fun _ => archiveWrap latest) s.comments from rfl,
        filter_replaceLastSat isBotComment (fun _ => archiveWrap latest) s.comments latest hg
          hwrap] at hc
      rcases List.mem_append.mp hc with hm | hm
      · exact hInv c hm
      · rw [List.mem_singleton.mp hm]
        exact isArchivedComment_archiveWrap latest

/-- `archive_old_comment` preserves the archival invariant. -/
theorem inv_preserved_archive (s : PRState) (hInv : BotCommentsArchivedInv s.comments) :
    BotCommentsArchivedInv (archive_old_comment s).1.comments := by
  intro c hc
  exact archive_filter_all_archived s hInv c
    (List.dropLast_subset ((archive_old_comment s).1.comments.filter isBotComment) hc)

/-- `post_or_update_comment` preserves the archival invariant. -/
theorem inv_preserved_post (s : PRState) (b : String)
    (hInv : BotCommentsArchivedInv s.comments) :
    BotCommentsArchivedInv (post_or_update_comment s b).1.comments := by
  cases hg : (s.comments.filter isBotComment).getLast? with
  | none =>
    rw [post_eq_of_none hg]
    intro c hc
    rw [show ({ s with comments := s.comments ++ [b] } : PRState).comments =
        s.comments ++ [b] from rfl, List.filter_append,
      List.getLast?_eq_none_iff.mp hg, List.nil_append] at hc
    have hdrop : (List.filter isBotComment [b]).dropLast = [] := by
      cases hb : isBotComment b <;> simp [List.filter_cons, hb]
    rw [hdrop] at hc
    cases hc
  | some last =>
    by_cases he : pstrip b = pstrip last
    · rw [post_eq_of_same hg he]
      exact hInv
    · rw [post_eq_of_different hg he]
      intro c hc
      rw [show ({ (archive_old_comment s).1 with
            comments := (archive_old_comment s).1.comments ++ [b] } : PRState).comments =
          (archive_old_comment s).1.comments ++ [b] from rfl, List.filter_append] at hc
      have hall := archive_filter_all_archived s hInv
      cases hb : isBotComment b with
      | false =>
        rw [show List.filter isBotComment [b] = [] by simp [List.filter_cons, hb],
          List.append_nil] at hc
        exact hall c (List.dropLast_subset _ hc)
      | true =>
        rw [show List.filter isBotComment [b] = [b] by simp [List.filter_cons, hb],
          List.dropLast_concat] at hc
        exact hall c hc

/-- C7: active-comment selection and archiving.  Under the archival invariant
(which both operations preserve), the code's archive target is exactly the
spec's active comment — the most recent marker comment not yet wrapped; the
wrapper carries the container tag, so an archived comment is never selected as
active again in any history and is never rewritten by later passes; and when a
new report body differs (after trim) from the active comment's body, the
active comment is archived first and the new comment posted second. -/
theorem active_comment_selection_and_archiving (s : PRState) (a new_body : String)
    (hInv : BotCommentsArchivedInv s.comments)
    (hActive : specActiveComment s.comments = some a) :
    (s.comments.filter isBotComment).getLast? = some a
    ∧ archive_old_comment s =
        ({ s with comments :=
            replaceLastSat isBotComment (fun _ => archiveWrap a) s.comments },
         [Act.editComment (archiveWrap a)])
    ∧ isArchivedComment (archiveWrap a) = true
    ∧ (∀ cs : List String, specActiveComment cs ≠ some (archiveWrap a))
    ∧ (∀ (s' : PRState) (b : String) (i : Nat) (c : String),
        isArchivedComment c = true → s'.comments[i]? = some c →
          (archive_old_comment s').1.comments[i]? = some c
          ∧ (post_or_update_comment s' b).1.comments[i]? = some c)
    ∧ (pstrip new_body ≠ pstrip a →
        post_or_update_comment s new_body =
          ({ s with comments :=
              replaceLastSat isBotComment (fun _ => archiveWrap a) s.comments ++ [new_body] },
           [Act.editComment (archiveWrap a), Act.postComment new_body]))
    ∧ BotCommentsArchivedInv (archive_old_comment s).1.comments
    ∧ (∀ b, BotCommentsArchivedInv (post_or_update_comment s b).1.comments) := by
  obtain ⟨hg, harch⟩ := inv_active_eq_code_selection hInv hActive
  have harchive := archive_eq_of_active hg harch
  refine ⟨hg, harchive, isArchivedComment_archiveWrap a,
    fun cs => specActive_not_archived cs (isArchivedComment_archiveWrap a),
    fun s' b i c hc hpos =>
      ⟨archive_preserves_archived s' i c hpos hc,
       post_preserves_archived s' b i c hpos hc⟩,
    ?_, inv_preserved_archive s hInv, fun b => inv_preserved_post s b hInv⟩
  intro he
  rw [post_eq_of_different hg he, harchive]
  rfl

/-- Witness for C7: a concrete single-comment history whose only marker
comment is active. -/
theorem active_comment_selection_and_archiving_witness :
    BotCommentsArchivedInv
        ({ comments := ["🚨 **CI Test Failures Detected**\n\nold report"], labels := [] } :
          PRState).comments
    ∧ specActiveComment
        ({ comments := ["🚨 **CI Test Failures Detected**\n\nold report"], labels := [] } :
          PRState).comments = some "🚨 **CI Test Failures Detected**\n\nold report"
    ∧ isArchivedComment
        (archiveWrap "🚨 **CI Test Failures Detected**\n\nold report") = true
    ∧ archive_old_comment
        { comments := ["🚨 **CI Test Failures Detected**\n\nold report"], labels := [] } =
      ({ comments := [archiveWrap "🚨 **CI Test Failures Detected**\n\nold report"],
         labels := [] },
       [Act.editComment (archiveWrap "🚨 **CI Test Failures Detected**\n\nold report")]) := by
  have hInv : BotCommentsArchivedInv
      ({ comments := ["🚨 **CI Test Failures Detected**\n\nold report"], labels := [] } :
        PRState).comments := by
    intro c hc
    rw [show (List.filter isBotComment
        ({ comments := ["🚨 **CI Test Failures Detected**\n\nold report"], labels := [] } :
          PRState).comments).dropLast = ([] : List String) by decide] at hc
    cases hc
  have h := active_comment_selection_and_archiving
    { comments := ["🚨 **CI Test Failures Detected**\n\nold report"], labels := [] }
    "🚨 **CI Test Failures Detected**\n\nold report" "x" hInv (by decide)
  exact ⟨hInv, by decide, h.2.2.1, h.2.1.trans (by decide)⟩

end Bot

section Scratch
open Bot
example : clean_line "2025-04-01T04:07:58.1000000Z \x1b[31mFAILED: Test failed due to assertion\x1b[0m" =
    "FAILED: Test failed due to assertion" := by decide
example : extract_error_snippets ["a", "ERROR: boom", "b"] = ["ERROR: boom"] := by decide
example : normKey "Units (devel)" = "units__devel_" := by decide
example : normalizeFolder "units__devel__000" = "units__devel__000" := by decide
example : normalizeFolder "0_units__devel_" = "units__devel_" := by decide
example : normalizeFolder "units (devel).txt" = "units__devel_" := by decide
example : match_job_for_log "units__devel__000" [("units__devel_", "Units (devel)")] =
    some "Units (devel)" := by decide
example : utf8DecodeIgnore [255, 65] = ['A'] := by decide
example : utf8DecodeIgnore [0xF0, 0x9F, 0x9A, 0xA8] = ['🚨'] := by decide
example : splitlinesL "a\r\nb\n".data = ["a".data, "b".data] := by decide
example :
    check_ci_errors_and_comment
      { runsCount := 1, runStatus := "completed", logsStatus := 200, jobsStatus := 200,
        jobs := [{ name := "Units (devel)", conclusion := "failure" }],
        zipEntries := [{ path := "0_units__devel_/1_test.txt", readable := true,
                         bytes := "FAILED: x".data.map Char.toNat }] }
      { comments := [], labels := [] } =
    ({ comments := ["🚨 **CI Test Failures Detected**\n\n### ⚙️ Units (devel)\n```bash\nFAILED: x\n```\n\n"],
       labels := ["stale_ci", "needs_revision"] },
     [Act.postComment "🚨 **CI Test Failures Detected**\n\n### ⚙️ Units (devel)\n```bash\nFAILED: x\n```\n\n",
      Act.addLabel "stale_ci", Act.addLabel "needs_revision"]) := by decide
end Scratch
